import Mathlib

/-!
Shallow embedding of the grid-index data structure in `src/scene/octree.py`
(class `Octree`): bounding-region and resolution derivation, per-point cell
assignment, the insert/update/remove lifecycle and the point-in-cell query.

Modelling conventions:
* numpy float arithmetic is rendered as exact arithmetic over `ℚ`; `np.floor`
  followed by `.astype(int)` is `Int.floor`; division by zero in `ℚ` is total
  (it returns 0) where numpy would produce inf/nan.
* the dictionaries `self.cells` and `self.point_cells` are rendered as
  functions `Cell3 → List ℕ` (a key that is absent maps to `[]`, which matches
  every read and write the class performs) and `ℕ → Option (List Cell3)`
  (where `none` records the absence of the key, which `remove_point` tests).
* numpy arrays of shape (N,3) and (N,3,3) are lists of `Vec3` / `Mat3`.
* places where the Python code raises are recorded by explicit predicates
  (`constructRaises`, `updateRaises`); the Lean functions themselves are total
  and their value is constrained by theorems only where the code does not raise.
-/

structure Vec3 where
  x : ℚ
  y : ℚ
  z : ℚ
deriving DecidableEq, Repr

structure Cell3 where
  x : ℤ
  y : ℤ
  z : ℤ
deriving DecidableEq, Repr

structure Mat3 where
  row0 : Vec3
  row1 : Vec3
  row2 : Vec3
deriving DecidableEq, Repr

def v0 : Vec3 := ⟨0, 0, 0⟩

def idMat : Mat3 := ⟨⟨1, 0, 0⟩, ⟨0, 1, 0⟩, ⟨0, 0, 1⟩⟩

def vmin (a b : Vec3) : Vec3 := ⟨min a.x b.x, min a.y b.y, min a.z b.z⟩

def vmax (a b : Vec3) : Vec3 := ⟨max a.x b.x, max a.y b.y, max a.z b.z⟩

/-- Componentwise minimum over all positions: `self.points.min(axis=0)`.
The value on `[]` is arbitrary; numpy raises there (see `constructRaises`). -/
def basicMin : List Vec3 → Vec3
  | [] => v0
  | p :: t => t.foldl vmin p

/-- Componentwise maximum over all positions: `self.points.max(axis=0)`. -/
def basicMax : List Vec3 → Vec3
  | [] => v0
  | p :: t => t.foldl vmax p

/-- The scalar `range_val = (basic_max - basic_min).max()`. -/
def rangeVal (ps : List Vec3) : ℚ :=
  max ((basicMax ps).x - (basicMin ps).x)
    (max ((basicMax ps).y - (basicMin ps).y) ((basicMax ps).z - (basicMin ps).z))

/-- Fuel-based floor of the base-2 logarithm of a natural number (the fuel is
the number itself, which always suffices). Structural recursion so that the
kernel can evaluate it. -/
def log2floorAux : ℕ → ℕ → ℕ
  | 0, _ => 0
  | fuel + 1, n => if 2 ≤ n then log2floorAux fuel (n / 2) + 1 else 0

def log2floor (n : ℕ) : ℕ := log2floorAux n n

/-- The quantity `int(np.floor(np.log2 x))` of the constructor, for `x > 1`
(the only case in which the code reaches it without raising): for a real
`x ≥ 1` one has `⌊log₂ x⌋ = ⌊log₂ ⌊x⌋⌋`, so the integer floor-log of the
rational is the floor-log of its integer part. -/
def floorLog2Rat (x : ℚ) : ℕ := log2floor (⌊x⌋.toNat)

/-- `np.clip v lo hi` on integers (`lo ≤ hi` in every use here). -/
def iclip (v lo hi : ℤ) : ℤ := min (max v lo) hi

/-- The integer interval `range(a, b+1)` as a list (empty when `b < a`). -/
def cellRangeList (a b : ℤ) : List ℤ :=
  (List.range (b + 1 - a).toNat).map (fun k : ℕ => a + (k : ℤ))

/-- One axis of the cell-index computation of `_get_cell_indices_for_point`:
`np.clip(np.floor((coord - global_min) / cell_size).astype(int), 0, n_cells - 1)`. -/
def gridIdx (coord gmin cs : ℚ) (n : ℕ) : ℤ :=
  iclip ⌊(coord - gmin) / cs⌋ 0 ((n : ℤ) - 1)

/-- One axis of `query_cell`:
`np.clip(np.floor((coord - gmin) / (gmax - gmin) * n_cells).astype(int), 0, n_cells - 1)`. -/
def queryIdx (coord gmin gmax : ℚ) (n : ℕ) : ℤ :=
  iclip ⌊(coord - gmin) / (gmax - gmin) * (n : ℚ)⌋ 0 ((n : ℤ) - 1)

/-- State of the `Octree` instance. -/
structure Octree where
  points : List Vec3
  scales : List Vec3
  rotations : List Mat3
  min_cell_size : ℚ
  global_min : Vec3
  global_max : Vec3
  depth : ℕ
  n_cells : ℕ
  cell_size : Vec3
  default_extent : ℚ
  cells : Cell3 → List ℕ
  point_cells : ℕ → Option (List Cell3)

/-- The loop body of `_insert_point` over the computed cell list: for each cell,
`self.cells.setdefault(cell, []).append(index)` (the code spells the setdefault
as an explicit `if cell not in self.cells` guard; with the function
representation the two coincide). -/
def appendCells (cs : Cell3 → List ℕ) (l : List Cell3) (i : ℕ) : Cell3 → List ℕ :=
  l.foldl (fun acc cell => fun c => if c = cell then acc cell ++ [i] else acc c) cs

/-- The loop body of `remove_point`: for each recorded cell,
`if cell in self.cells and index in self.cells[cell]: self.cells[cell].remove(index)`.
`List.erase` removes the first occurrence and is a no-op when absent, which is
exactly the guarded `list.remove`. -/
def eraseCells (cs : Cell3 → List ℕ) (l : List Cell3) (i : ℕ) : Cell3 → List ℕ :=
  l.foldl (fun acc cell => fun c => if c = cell then (acc cell).erase i else acc c) cs

/-- `_get_cell_indices_for_point`. -/
def Octree.getCellIndicesForPoint (o : Octree) (point : Vec3) : List Cell3 :=
  let sx := gridIdx (point.x - o.default_extent) o.global_min.x o.cell_size.x o.n_cells
  let sy := gridIdx (point.y - o.default_extent) o.global_min.y o.cell_size.y o.n_cells
  let sz := gridIdx (point.z - o.default_extent) o.global_min.z o.cell_size.z o.n_cells
  let ex := gridIdx (point.x + o.default_extent) o.global_min.x o.cell_size.x o.n_cells
  let ey := gridIdx (point.y + o.default_extent) o.global_min.y o.cell_size.y o.n_cells
  let ez := gridIdx (point.z + o.default_extent) o.global_min.z o.cell_size.z o.n_cells
  (cellRangeList sx ex).bind fun ix =>
    (cellRangeList sy ey).bind fun iy =>
      (cellRangeList sz ez).map fun iz => ⟨ix, iy, iz⟩

/-- `_insert_point(index, point, scale, rotation)`; `scale` and `rotation` are
parameters of the Python method but are not consulted by its body. -/
def Octree._insert_point (o : Octree) (index : ℕ) (point : Vec3)
    (scale : Vec3) (rotation : Mat3) : Octree :=
  let cell_indices := o.getCellIndicesForPoint point
  { o with
    point_cells := fun h => if h = index then some cell_indices else o.point_cells h
    cells := appendCells o.cells cell_indices index }

/-- `remove_point(index)`: a no-op when the handle is unknown to `point_cells`. -/
def Octree.remove_point (o : Octree) (index : ℕ) : Octree :=
  match o.point_cells index with
  | none => o
  | some l =>
    { o with
      cells := eraseCells o.cells l index
      point_cells := fun h => if h = index then none else o.point_cells h }

/-- `update_point(index, new_point, new_scale, new_rotation)` = remove, write
the three storage slots in place, re-insert. Each in-place numpy write
`self.points[index] = ...` raises IndexError when `index` is out of range
(see `updateRaises`); the nested conditionals return the state the code leaves
behind when one of the writes raises. -/
def Octree.update_point (o : Octree) (index : ℕ) (new_point new_scale : Vec3)
    (new_rotation : Mat3) : Octree :=
  let o1 := o.remove_point index
  if index < o1.points.length then
    let o2 := { o1 with points := o1.points.set index new_point }
    if index < o2.scales.length then
      let o3 := { o2 with scales := o2.scales.set index new_scale }
      if index < o3.rotations.length then
        let o4 := { o3 with rotations := o3.rotations.set index new_rotation }
        o4._insert_point index new_point new_scale new_rotation
      else o3
    else o2
  else o1

/-- `update_point` raises (IndexError on one of the three in-place writes)
exactly when the handle is outside one of the stored arrays. -/
def updateRaises (o : Octree) (index : ℕ) : Prop :=
  o.points.length ≤ index ∨ o.scales.length ≤ index ∨ o.rotations.length ≤ index

instance (o : Octree) (index : ℕ) : Decidable (updateRaises o index) := by
  unfold updateRaises; infer_instance

/-- `insert_point(point, scale, rotation)`: appends to the three arrays, indexes
the new handle (the previous array length) and returns it. -/
def Octree.insert_point (o : Octree) (point scale : Vec3) (rotation : Mat3) :
    Octree × ℕ :=
  let index := o.points.length
  let o1 := { o with
    points := o.points ++ [point]
    scales := o.scales ++ [scale]
    rotations := o.rotations ++ [rotation] }
  (o1._insert_point index point scale rotation, index)

/-- `query_cell(point)`. -/
def Octree.query_cell (o : Octree) (point : Vec3) : Cell3 :=
  ⟨queryIdx point.x o.global_min.x o.global_max.x o.n_cells,
   queryIdx point.y o.global_min.y o.global_max.y o.n_cells,
   queryIdx point.z o.global_min.z o.global_max.z o.n_cells⟩

/-- `query(point)` = `self.cells.get(self.query_cell(point), [])`. -/
def Octree.query (o : Octree) (point : Vec3) : List ℕ :=
  o.cells (o.query_cell point)

/-- The state the constructor builds before its insertion loop. -/
def octreeInit0 (points scales : List Vec3) (rotations : List Mat3)
    (min_cell_size : ℚ) : Octree :=
  let basic_min := basicMin points
  let basic_max := basicMax points
  let center : Vec3 :=
    ⟨(basic_min.x + basic_max.x) / 2, (basic_min.y + basic_max.y) / 2,
     (basic_min.z + basic_max.z) / 2⟩
  let range_val := rangeVal points
  let global_min : Vec3 :=
    ⟨center.x - range_val / 2, center.y - range_val / 2, center.z - range_val / 2⟩
  let global_max : Vec3 :=
    ⟨center.x + range_val / 2, center.y + range_val / 2, center.z + range_val / 2⟩
  let depth : ℕ :=
    if range_val > min_cell_size then floorLog2Rat (range_val / min_cell_size) else 0
  let n_cells : ℕ := if depth > 0 then 2 ^ depth else 1
  let cell_size : Vec3 :=
    ⟨(global_max.x - global_min.x) / (n_cells : ℚ),
     (global_max.y - global_min.y) / (n_cells : ℚ),
     (global_max.z - global_min.z) / (n_cells : ℚ)⟩
  let default_extent := cell_size.x / 4
  { points := points, scales := scales, rotations := rotations
    min_cell_size := min_cell_size
    global_min := global_min, global_max := global_max
    depth := depth, n_cells := n_cells
    cell_size := cell_size, default_extent := default_extent
    cells := fun _ => [], point_cells := fun _ => none }

/-- The constructor's insertion loop
`for i in range(N): self._insert_point(i, self.points[i], self.scales[i], self.rotations[i])`. -/
def Octree.insertLoop (o : Octree) (n : ℕ) : Octree :=
  (List.range n).foldl
    (fun oc i =>
      oc._insert_point i (oc.points.getD i v0) (oc.scales.getD i v0)
        (oc.rotations.getD i idMat)) o

/-- `Octree.__init__`. -/
def octreeInit (points scales : List Vec3) (rotations : List Mat3)
    (min_cell_size : ℚ) : Octree :=
  (octreeInit0 points scales rotations min_cell_size).insertLoop points.length

/-- The constructor raises exactly when: the position set is empty (numpy
reduction over a zero-size array), the scales or rotations arrays are shorter
than the positions (IndexError inside the insertion loop), or the log branch is
taken with non-positive `min_cell_size` (`np.log2` of a non-positive float is
nan/inf and `int(...)` of it raises). It performs no other validation. -/
def constructRaises (points scales : List Vec3) (rotations : List Mat3)
    (min_cell_size : ℚ) : Prop :=
  points = [] ∨ scales.length < points.length ∨ rotations.length < points.length ∨
    (rangeVal points > min_cell_size ∧ min_cell_size ≤ 0)

instance (ps ss : List Vec3) (rs : List Mat3) (m : ℚ) :
    Decidable (constructRaises ps ss rs m) := by
  unfold constructRaises; infer_instance

/-- One mutating call of the public lifecycle. -/
inductive Op where
  | ins (point scale : Vec3) (rotation : Mat3)
  | upd (index : ℕ) (point scale : Vec3) (rotation : Mat3)
  | rem (index : ℕ)

def Octree.applyOp (o : Octree) : Op → Octree
  | .ins p s r => (o.insert_point p s r).1
  | .upd i p s r => o.update_point i p s r
  | .rem i => o.remove_point i

/-- A whole mutation sequence. `query_cell` and `query` are pure functions on
the state and appear nowhere here because they return values, not states. -/
def Octree.runOps (o : Octree) (ops : List Op) : Octree :=
  ops.foldl Octree.applyOp o

/-- Positions of the spec's concrete scenario. -/
def ps0 : List Vec3 := [⟨0, 0, 0⟩, ⟨1, 1, 1⟩]

def ss0 : List Vec3 := [⟨1, 1, 1⟩, ⟨1, 1, 1⟩]

def rs0 : List Mat3 := [idMat, idMat]

/-- The octree of the spec's concrete scenario (`min_cell_size = 0.6`). -/
def exampleOctree : Octree := octreeInit ps0 ss0 rs0 (3 / 5)

/-- Positions with all coordinates equal on the largest axis closer than
`min_cell_size`: used to exhibit the clamped branch of the depth computation. -/
def psSmall : List Vec3 := [⟨0, 0, 0⟩, ⟨1 / 2, 0, 0⟩]

def ssSmall : List Vec3 := [⟨1, 1, 1⟩, ⟨1, 1, 1⟩]

def rsSmall : List Mat3 := [idMat, idMat]

/-- A one-position input paired with two-element scales/rotations arrays:
mismatched lengths that the constructor accepts. -/
def psOne : List Vec3 := [⟨0, 0, 0⟩]

/-- The grid parameters fixed at construction: `global_min`, `global_max`,
`depth`, `n_cells`, `cell_size`, `default_extent`. -/
def Octree.gridParams (o : Octree) : Vec3 × Vec3 × ℕ × ℕ × Vec3 × ℚ :=
  (o.global_min, o.global_max, o.depth, o.n_cells, o.cell_size, o.default_extent)

/-- The state invariant maintained by construction and by every lifecycle
operation: the two indices agree with multiplicity (each handle occurs in a
cell membership sequence as often as that cell occurs in the handle's reverse
entry); reverse entries exist only for stored handles and record exactly the
cell set computed from the handle's stored position; and the scales/rotations
arrays are at least as long as the positions array. -/
structure OctreeInv (o : Octree) : Prop where
  count_eq : ∀ h c, (o.cells c).count h = ((o.point_cells h).getD []).count c
  dom : ∀ h, o.point_cells h ≠ none → h < o.points.length
  pc_eq : ∀ h l, o.point_cells h = some l →
    l = o.getCellIndicesForPoint (o.points.getD h v0)
  len_s : o.points.length ≤ o.scales.length
  len_r : o.points.length ≤ o.rotations.length

lemma getD_set_self {α : Type} (l : List α) (n : ℕ) (a d : α) (h : n < l.length) :
    (l.set n a).getD n d = a := by
  induction l generalizing n with
  | nil => simp at h
  | cons b t ih =>
    cases n with
    | zero => simp
    | succ k => simpa using ih k (by simpa using h)

lemma getD_set_ne {α : Type} (l : List α) (m n : ℕ) (a d : α) (h : m ≠ n) :
    (l.set n a).getD m d = l.getD m d := by
  induction l generalizing m n with
  | nil => simp
  | cons b t ih =>
    cases n with
    | zero =>
      cases m with
      | zero => exact absurd rfl h
      | succ j => simp
    | succ k =>
      cases m with
      | zero => simp
      | succ j => simpa using ih j k (by omega)

lemma getD_append_left {α : Type} (l₁ l₂ : List α) (n : ℕ) (d : α)
    (h : n < l₁.length) : ((l₁ ++ l₂).getD n d) = l₁.getD n d := by
  induction l₁ generalizing n with
  | nil => simp at h
  | cons b t ih =>
    cases n with
    | zero => simp
    | succ k => simpa using ih k (by simpa using h)

lemma getD_append_self {α : Type} (l : List α) (a d : α) :
    ((l ++ [a]).getD l.length d) = a := by
  induction l with
  | nil => simp
  | cons b t ih => simpa using ih

lemma set_getD_self {α : Type} (l : List α) (n : ℕ) (d : α) :
    l.set n (l.getD n d) = l := by
  induction l generalizing n with
  | nil => simp
  | cons b t ih =>
    cases n with
    | zero => simp
    | succ k => simpa using ih k

lemma appendCells_apply (cs : Cell3 → List ℕ) (l : List Cell3) (i : ℕ) (c : Cell3) :
    appendCells cs l i c = cs c ++ List.replicate (l.count c) i := by
  induction l generalizing cs with
  | nil => simp [appendCells]
  | cons cell t ih =>
    have step : appendCells cs (cell :: t) i =
        appendCells (fun c => if c = cell then cs cell ++ [i] else cs c) t i := rfl
    rw [step, ih]
    by_cases hc : c = cell
    · subst hc
      simp [List.count_cons, List.replicate_add, List.replicate_succ]
    · simp [hc, List.count_cons, Ne.symm hc]

lemma eraseCells_apply (cs : Cell3 → List ℕ) (l : List Cell3) (i : ℕ) (c : Cell3) :
    eraseCells cs l i c = (fun L => L.erase i)^[l.count c] (cs c) := by
  induction l generalizing cs with
  | nil => simp [eraseCells]
  | cons cell t ih =>
    have step : eraseCells cs (cell :: t) i =
        eraseCells (fun c => if c = cell then (cs cell).erase i else cs c) t i := rfl
    rw [step, ih]
    by_cases hc : c = cell
    · subst hc
      simp [List.count_cons, Function.iterate_succ_apply, Nat.add_comm]
    · simp [hc, List.count_cons, Ne.symm hc]

lemma count_eraseIterate_self (L : List ℕ) (i : ℕ) (k : ℕ) :
    ((fun L => L.erase i)^[k] L).count i = L.count i - k := by
  induction k generalizing L with
  | zero => simp
  | succ k ih =>
    rw [Function.iterate_succ_apply, ih, List.count_erase_self]
    omega

lemma count_eraseIterate_ne (L : List ℕ) (i j : ℕ) (k : ℕ) (h : j ≠ i) :
    ((fun L => L.erase i)^[k] L).count j = L.count j := by
  induction k generalizing L with
  | zero => simp
  | succ k ih =>
    rw [Function.iterate_succ_apply, ih, List.count_erase_of_ne h]

lemma eraseIterate_append_replicate (L : List ℕ) (i : ℕ) (k : ℕ) (h : i ∉ L) :
    (fun L => L.erase i)^[k] (L ++ List.replicate k i) = L := by
  induction k with
  | zero => simp
  | succ k ih =>
    rw [Function.iterate_succ_apply]
    have : (L ++ List.replicate (k + 1) i).erase i = L ++ List.replicate k i := by
      rw [List.replicate_succ, List.erase_append_right _ h, List.erase_cons_head]
    rw [this, ih]

lemma perm_eraseIterate_append (L : List ℕ) (i : ℕ) (k : ℕ) (h : L.count i = k) :
    (((fun L => L.erase i)^[k] L) ++ List.replicate k i).Perm L := by
  induction k generalizing L with
  | zero => simp
  | succ k ih =>
    have hi : i ∈ L := by
      rw [← List.count_pos_iff]
      omega
    have h2 : (L.erase i).count i = k := by
      rw [List.count_erase_self]
      omega
    have hperm := ih (L.erase i) h2
    rw [Function.iterate_succ_apply, List.replicate_succ', ← List.append_assoc]
    exact (List.perm_append_singleton _ _).trans
      ((hperm.cons i).trans (List.perm_cons_erase hi).symm)

lemma insertPoint_gridParams (o : Octree) (i : ℕ) (p s : Vec3) (r : Mat3) :
    (o._insert_point i p s r).gridParams = o.gridParams := rfl

lemma insertPoint_points (o : Octree) (i : ℕ) (p s : Vec3) (r : Mat3) :
    (o._insert_point i p s r).points = o.points := rfl

lemma insertPoint_scales (o : Octree) (i : ℕ) (p s : Vec3) (r : Mat3) :
    (o._insert_point i p s r).scales = o.scales := rfl

lemma insertPoint_rotations (o : Octree) (i : ℕ) (p s : Vec3) (r : Mat3) :
    (o._insert_point i p s r).rotations = o.rotations := rfl

lemma insertPoint_cells (o : Octree) (i : ℕ) (p s : Vec3) (r : Mat3) :
    (o._insert_point i p s r).cells =
      appendCells o.cells (o.getCellIndicesForPoint p) i := rfl

lemma insertPoint_pc (o : Octree) (i : ℕ) (p s : Vec3) (r : Mat3) (j : ℕ) :
    (o._insert_point i p s r).point_cells j =
      if j = i then some (o.getCellIndicesForPoint p) else o.point_cells j := rfl

lemma gridParams_fields {o1 o2 : Octree} (h : o1.gridParams = o2.gridParams) :
    o1.global_min = o2.global_min ∧ o1.global_max = o2.global_max ∧
      o1.depth = o2.depth ∧ o1.n_cells = o2.n_cells ∧
      o1.cell_size = o2.cell_size ∧ o1.default_extent = o2.default_extent := by
  simpa [Octree.gridParams, Prod.ext_iff] using h

lemma getCell_congr {o1 o2 : Octree} (h : o1.gridParams = o2.gridParams) (p : Vec3) :
    o1.getCellIndicesForPoint p = o2.getCellIndicesForPoint p := by
  obtain ⟨h1, h2, h3, h4, h5, h6⟩ := gridParams_fields h
  simp only [Octree.getCellIndicesForPoint, h1, h4, h5, h6]

lemma remove_point_none {o : Octree} {i : ℕ} (h : o.point_cells i = none) :
    o.remove_point i = o := by
  simp [Octree.remove_point, h]

lemma remove_point_some {o : Octree} {i : ℕ} {l : List Cell3}
    (h : o.point_cells i = some l) :
    o.remove_point i = { o with
      cells := eraseCells o.cells l i
      point_cells := fun j => if j = i then none else o.point_cells j } := by
  simp [Octree.remove_point, h]

lemma remove_point_gridParams (o : Octree) (i : ℕ) :
    (o.remove_point i).gridParams = o.gridParams := by
  cases h : o.point_cells i with
  | none => rw [remove_point_none h]
  | some l => rw [remove_point_some h]; rfl

lemma remove_point_points (o : Octree) (i : ℕ) :
    (o.remove_point i).points = o.points := by
  cases h : o.point_cells i with
  | none => rw [remove_point_none h]
  | some l => rw [remove_point_some h]

lemma remove_point_scales (o : Octree) (i : ℕ) :
    (o.remove_point i).scales = o.scales := by
  cases h : o.point_cells i with
  | none => rw [remove_point_none h]
  | some l => rw [remove_point_some h]

lemma remove_point_rotations (o : Octree) (i : ℕ) :
    (o.remove_point i).rotations = o.rotations := by
  cases h : o.point_cells i with
  | none => rw [remove_point_none h]
  | some l => rw [remove_point_some h]

lemma remove_point_pc (o : Octree) (i j : ℕ) :
    (o.remove_point i).point_cells j = if j = i then none else o.point_cells j := by
  cases h : o.point_cells i with
  | none =>
    rw [remove_point_none h]
    by_cases hj : j = i
    · subst hj; simp [h]
    · simp [hj]
  | some l => rw [remove_point_some h]

lemma update_point_gridParams (o : Octree) (i : ℕ) (p s : Vec3) (r : Mat3) :
    (o.update_point i p s r).gridParams = o.gridParams := by
  simp only [Octree.update_point]
  split_ifs <;>
    simp [insertPoint_gridParams, Octree.gridParams] <;>
    simpa [Octree.gridParams] using gridParams_fields (remove_point_gridParams o i)

lemma insert_point_idx (o : Octree) (p s : Vec3) (r : Mat3) :
    (o.insert_point p s r).2 = o.points.length := rfl

lemma insert_point_gridParams (o : Octree) (p s : Vec3) (r : Mat3) :
    (o.insert_point p s r).1.gridParams = o.gridParams := rfl

lemma applyOp_gridParams (o : Octree) (op : Op) :
    (o.applyOp op).gridParams = o.gridParams := by
  cases op with
  | ins p s r => exact insert_point_gridParams o p s r
  | upd i p s r => exact update_point_gridParams o i p s r
  | rem i => exact remove_point_gridParams o i

lemma runOps_gridParams (o : Octree) (ops : List Op) :
    (o.runOps ops).gridParams = o.gridParams := by
  induction ops generalizing o with
  | nil => rfl
  | cons op t ih =>
    have : o.runOps (op :: t) = (o.applyOp op).runOps t := rfl
    rw [this, ih, applyOp_gridParams]

lemma inv_insertPoint {o : Octree} (inv : OctreeInv o) {i : ℕ} {p : Vec3}
    (s : Vec3) (r : Mat3) (hi : i < o.points.length)
    (hnone : o.point_cells i = none) (hp : o.points.getD i v0 = p) :
    OctreeInv (o._insert_point i p s r) := by
  refine ⟨?_, ?_, ?_, inv.len_s, inv.len_r⟩
  · intro h c
    have hcells : (o._insert_point i p s r).cells c =
        o.cells c ++ List.replicate ((o.getCellIndicesForPoint p).count c) i := by
      rw [insertPoint_cells, appendCells_apply]
    rw [hcells, List.count_append, insertPoint_pc]
    by_cases hh : h = i
    · subst hh
      have h0 := inv.count_eq h c
      rw [hnone] at h0
      simp only [Option.getD_none, List.count_nil] at h0
      simp [h0, List.count_replicate]
    · have hc0 := inv.count_eq h c
      simp [hh, List.count_replicate, hc0, Ne.symm hh]
  · intro h hne
    rw [insertPoint_pc] at hne
    rw [insertPoint_points]
    by_cases hh : h = i
    · subst hh; exact hi
    · exact inv.dom h (by simpa [hh] using hne)
  · intro h l hl
    rw [insertPoint_pc] at hl
    rw [getCell_congr (insertPoint_gridParams o i p s r), insertPoint_points]
    by_cases hh : h = i
    · subst hh
      rw [if_pos rfl] at hl
      rw [hp]
      exact (Option.some_injective _ hl).symm
    · rw [if_neg hh] at hl
      exact inv.pc_eq h l hl

lemma inv_remove {o : Octree} (inv : OctreeInv o) (i : ℕ) :
    OctreeInv (o.remove_point i) := by
  cases hpc : o.point_cells i with
  | none => rwa [remove_point_none hpc]
  | some l =>
    rw [remove_point_some hpc]
    refine ⟨?_, ?_, ?_, inv.len_s, inv.len_r⟩
    · intro h c
      show (eraseCells o.cells l i c).count h =
        (((if h = i then none else o.point_cells h)).getD []).count c
      rw [eraseCells_apply]
      by_cases hh : h = i
      · subst hh
        rw [count_eraseIterate_self]
        have h1 := inv.count_eq h c
        rw [hpc] at h1
        simp only [Option.getD_some] at h1
        simp [h1]
      · rw [count_eraseIterate_ne _ _ _ _ hh]
        simp [hh, inv.count_eq h c]
    · intro h hne
      show h < o.points.length
      by_cases hh : h = i
      · subst hh; simp at hne
      · exact inv.dom h (by simpa [hh] using hne)
    · intro h l2 hl2
      by_cases hh : h = i
      · subst hh; simp at hl2
      · have hl3 : (if h = i then none else o.point_cells h) = some l2 := hl2
        rw [if_neg hh] at hl3
        exact inv.pc_eq h l2 hl3

lemma inv_set_points {o : Octree} (inv : OctreeInv o) {i : ℕ}
    (hnone : o.point_cells i = none) (np : Vec3) :
    OctreeInv { o with points := o.points.set i np } := by
  refine ⟨inv.count_eq, ?_, ?_, ?_, ?_⟩
  · intro h hne
    show h < (o.points.set i np).length
    rw [List.length_set]
    exact inv.dom h hne
  · intro h l hl
    have hh : h ≠ i := by
      intro he
      rw [he, hnone] at hl
      exact Option.noConfusion hl
    show l = _
    rw [show ({ o with points := o.points.set i np } : Octree).points.getD h v0 =
      (o.points.set i np).getD h v0 from rfl, getD_set_ne _ _ _ _ _ hh]
    exact inv.pc_eq h l hl
  · show (o.points.set i np).length ≤ o.scales.length
    rw [List.length_set]; exact inv.len_s
  · show (o.points.set i np).length ≤ o.rotations.length
    rw [List.length_set]; exact inv.len_r

lemma inv_set_scales {o : Octree} (inv : OctreeInv o) (i : ℕ) (ns : Vec3) :
    OctreeInv { o with scales := o.scales.set i ns } := by
  refine ⟨inv.count_eq, inv.dom, inv.pc_eq, ?_, inv.len_r⟩
  show o.points.length ≤ (o.scales.set i ns).length
  rw [List.length_set]; exact inv.len_s

lemma inv_set_rotations {o : Octree} (inv : OctreeInv o) (i : ℕ) (nr : Mat3) :
    OctreeInv { o with rotations := o.rotations.set i nr } := by
  refine ⟨inv.count_eq, inv.dom, inv.pc_eq, inv.len_s, ?_⟩
  show o.points.length ≤ (o.rotations.set i nr).length
  rw [List.length_set]; exact inv.len_r

lemma inv_update {o : Octree} (inv : OctreeInv o) (i : ℕ) (p s : Vec3) (r : Mat3) :
    OctreeInv (o.update_point i p s r) := by
  have inv1 := inv_remove inv i
  have hpc1 : (o.remove_point i).point_cells i = none := by
    rw [remove_point_pc]; simp
  simp only [Octree.update_point]
  split_ifs with h1 h2 h3
  · refine inv_insertPoint
      (inv_set_rotations (inv_set_scales (inv_set_points inv1 hpc1 p) i s) i r)
      s r ?_ hpc1 ?_
    · simpa using h1
    · show ((o.remove_point i).points.set i p).getD i v0 = p
      exact getD_set_self _ _ _ _ h1
  · exact inv_set_scales (inv_set_points inv1 hpc1 p) i s
  · exact inv_set_points inv1 hpc1 p
  · exact inv1

lemma inv_append {o : Octree} (inv : OctreeInv o) (p s : Vec3) (r : Mat3) :
    OctreeInv { o with
      points := o.points ++ [p]
      scales := o.scales ++ [s]
      rotations := o.rotations ++ [r] } := by
  refine ⟨inv.count_eq, ?_, ?_, ?_, ?_⟩
  · intro h hne
    show h < (o.points ++ [p]).length
    have := inv.dom h hne
    simp only [List.length_append, List.length_singleton]
    omega
  · intro h l hl
    have hl0 : o.point_cells h = some l := hl
    have hlt := inv.dom h (by simp [hl0])
    have hd : (o.points ++ [p]).getD h v0 = o.points.getD h v0 :=
      getD_append_left _ _ _ _ hlt
    show l = Octree.getCellIndicesForPoint _ ((o.points ++ [p]).getD h v0)
    rw [hd]
    exact inv.pc_eq h l hl0
  · show (o.points ++ [p]).length ≤ (o.scales ++ [s]).length
    simp only [List.length_append, List.length_singleton]
    have := inv.len_s; omega
  · show (o.points ++ [p]).length ≤ (o.rotations ++ [r]).length
    simp only [List.length_append, List.length_singleton]
    have := inv.len_r; omega

lemma inv_insert {o : Octree} (inv : OctreeInv o) (p s : Vec3) (r : Mat3) :
    OctreeInv (o.insert_point p s r).1 := by
  have hnone : o.point_cells o.points.length = none := by
    by_contra hne
    exact absurd (inv.dom _ hne) (lt_irrefl _)
  refine inv_insertPoint (inv_append inv p s r) s r ?_ hnone ?_
  · show o.points.length < (o.points ++ [p]).length
    simp
  · show (o.points ++ [p]).getD o.points.length v0 = p
    exact getD_append_self _ _ _

lemma inv_applyOp {o : Octree} (inv : OctreeInv o) (op : Op) :
    OctreeInv (o.applyOp op) := by
  cases op with
  | ins p s r => exact inv_insert inv p s r
  | upd i p s r => exact inv_update inv i p s r
  | rem i => exact inv_remove inv i

lemma inv_runOps {o : Octree} (inv : OctreeInv o) (ops : List Op) :
    OctreeInv (o.runOps ops) := by
  induction ops generalizing o with
  | nil => exact inv
  | cons op t ih => exact ih (inv_applyOp inv op)

lemma insertLoop_succ (o : Octree) (n : ℕ) :
    o.insertLoop (n + 1) = (o.insertLoop n)._insert_point n
      ((o.insertLoop n).points.getD n v0) ((o.insertLoop n).scales.getD n v0)
      ((o.insertLoop n).rotations.getD n idMat) := by
  simp [Octree.insertLoop, List.range_succ]

lemma insertLoop_points (o : Octree) (n : ℕ) :
    (o.insertLoop n).points = o.points := by
  induction n with
  | zero => rfl
  | succ k ih => rw [insertLoop_succ, insertPoint_points, ih]

lemma insertLoop_scales (o : Octree) (n : ℕ) :
    (o.insertLoop n).scales = o.scales := by
  induction n with
  | zero => rfl
  | succ k ih => rw [insertLoop_succ, insertPoint_scales, ih]

lemma insertLoop_rotations (o : Octree) (n : ℕ) :
    (o.insertLoop n).rotations = o.rotations := by
  induction n with
  | zero => rfl
  | succ k ih => rw [insertLoop_succ, insertPoint_rotations, ih]

lemma insertLoop_gridParams (o : Octree) (n : ℕ) :
    (o.insertLoop n).gridParams = o.gridParams := by
  induction n with
  | zero => rfl
  | succ k ih => rw [insertLoop_succ, insertPoint_gridParams, ih]

lemma insertLoop_pc_high (o : Octree) (n j : ℕ) (hj : n ≤ j) :
    (o.insertLoop n).point_cells j = o.point_cells j := by
  induction n with
  | zero => rfl
  | succ k ih =>
    rw [insertLoop_succ, insertPoint_pc, if_neg (by omega), ih (by omega)]

lemma insertLoop_pc_low (o : Octree) (n j : ℕ) (hj : j < n) :
    (o.insertLoop n).point_cells j ≠ none := by
  induction n with
  | zero => omega
  | succ k ih =>
    rw [insertLoop_succ, insertPoint_pc]
    by_cases hjk : j = k
    · simp [hjk]
    · rw [if_neg hjk]
      exact ih (by omega)

lemma inv_insertLoop {o : Octree} (inv : OctreeInv o) (n : ℕ)
    (hn : n ≤ o.points.length) (hnone : ∀ j, j < n → o.point_cells j = none) :
    OctreeInv (o.insertLoop n) := by
  induction n with
  | zero => exact inv
  | succ k ih =>
    have invk := ih (by omega) (fun j hj => hnone j (by omega))
    rw [insertLoop_succ]
    refine inv_insertPoint invk _ _ ?_ ?_ rfl
    · rw [insertLoop_points]
      omega
    · rw [insertLoop_pc_high o k k le_rfl]
      exact hnone k (by omega)

lemma octreeInit0_points (ps ss : List Vec3) (rs : List Mat3) (m : ℚ) :
    (octreeInit0 ps ss rs m).points = ps := rfl

lemma inv_octreeInit0 {ps ss : List Vec3} {rs : List Mat3} {m : ℚ}
    (hs : ps.length ≤ ss.length) (hr : ps.length ≤ rs.length) :
    OctreeInv (octreeInit0 ps ss rs m) := by
  refine ⟨?_, ?_, ?_, hs, hr⟩
  · intro h c
    show (List.count h []) = (List.count c ((none : Option (List Cell3)).getD []))
    simp
  · intro h hne
    exact absurd rfl hne
  · intro h l hl
    exact Option.noConfusion hl

lemma constructOk {ps ss : List Vec3} {rs : List Mat3} {m : ℚ}
    (h : ¬ constructRaises ps ss rs m) :
    ps ≠ [] ∧ ps.length ≤ ss.length ∧ ps.length ≤ rs.length ∧
      ¬(rangeVal ps > m ∧ m ≤ 0) := by
  unfold constructRaises at h
  push_neg at h
  obtain ⟨h1, h2, h3, h4⟩ := h
  exact ⟨h1, by omega, by omega, by intro hc; exact absurd (h4 hc.1) (not_lt.mpr hc.2)⟩

lemma inv_init {ps ss : List Vec3} {rs : List Mat3} {m : ℚ}
    (h : ¬ constructRaises ps ss rs m) : OctreeInv (octreeInit ps ss rs m) := by
  obtain ⟨-, hs, hr, -⟩ := constructOk h
  exact inv_insertLoop (inv_octreeInit0 hs hr) ps.length le_rfl (fun j hj => rfl)

lemma update_point_eq {o : Octree} {i : ℕ} (np ns : Vec3) (nr : Mat3)
    (h1 : i < o.points.length) (h2 : i < o.scales.length)
    (h3 : i < o.rotations.length) :
    o.update_point i np ns nr =
      ({ o.remove_point i with
        points := (o.remove_point i).points.set i np
        scales := (o.remove_point i).scales.set i ns
        rotations := (o.remove_point i).rotations.set i nr } :
          Octree)._insert_point i np ns nr := by
  simp only [Octree.update_point]
  split_ifs with g1 g2 g3
  · rfl
  · exact absurd (show i < (o.remove_point i).rotations.length by
      rw [remove_point_rotations]; exact h3) g3
  · exact absurd (show i < (o.remove_point i).scales.length by
      rw [remove_point_scales]; exact h2) g2
  · exact absurd (show i < (o.remove_point i).points.length by
      rw [remove_point_points]; exact h1) g1

lemma update_point_pc_full {o : Octree} {i : ℕ} (np ns : Vec3) (nr : Mat3)
    (h1 : i < o.points.length) (h2 : i < o.scales.length)
    (h3 : i < o.rotations.length) (j : ℕ) :
    (o.update_point i np ns nr).point_cells j =
      if j = i then some (o.getCellIndicesForPoint np) else o.point_cells j := by
  rw [update_point_eq np ns nr h1 h2 h3, insertPoint_pc]
  by_cases hj : j = i
  · rw [if_pos hj, if_pos hj]
    have hgp : ({ o.remove_point i with
        points := (o.remove_point i).points.set i np
        scales := (o.remove_point i).scales.set i ns
        rotations := (o.remove_point i).rotations.set i nr } :
          Octree).gridParams = o.gridParams := remove_point_gridParams o i
    rw [getCell_congr hgp]
  · rw [if_neg hj, if_neg hj]
    show (o.remove_point i).point_cells j = o.point_cells j
    rw [remove_point_pc, if_neg hj]

lemma update_point_cells_full {o : Octree} {i : ℕ} (np ns : Vec3) (nr : Mat3)
    (h1 : i < o.points.length) (h2 : i < o.scales.length)
    (h3 : i < o.rotations.length) :
    (o.update_point i np ns nr).cells =
      appendCells (o.remove_point i).cells (o.getCellIndicesForPoint np) i := by
  rw [update_point_eq np ns nr h1 h2 h3, insertPoint_cells]
  have hgp : ({ o.remove_point i with
      points := (o.remove_point i).points.set i np
      scales := (o.remove_point i).scales.set i ns
      rotations := (o.remove_point i).rotations.set i nr } :
        Octree).gridParams = o.gridParams := remove_point_gridParams o i
  rw [getCell_congr hgp]

/-- C1: after construction (on input the constructor accepts) and after every
sequence of `insert_point`, `update_point`, `remove_point` calls, a handle
appears in the membership sequence of a cell exactly when that cell appears in
the handle's reverse-index entry. -/
theorem reverse_index_consistency (ps ss : List Vec3) (rs : List Mat3) (m : ℚ)
    (ops : List Op) (hok : ¬ constructRaises ps ss rs m) (h : ℕ) (c : Cell3) :
    h ∈ ((octreeInit ps ss rs m).runOps ops).cells c ↔
      c ∈ (((octreeInit ps ss rs m).runOps ops).point_cells h).getD [] := by
  have inv := inv_runOps (inv_init hok) ops
  have hc := inv.count_eq h c
  constructor
  · intro hm
    rw [← List.count_pos_iff] at hm ⊢
    omega
  · intro hm
    rw [← List.count_pos_iff] at hm ⊢
    omega

/-- C5: on any state satisfying the maintained invariant, inserting a primitive
and then removing the returned handle leaves the reverse index without an entry
for that handle, restores every cell membership sequence exactly, and leaves
every other handle's reverse entry unchanged. -/
theorem insert_remove_inverse (o : Octree) (inv : OctreeInv o) (p s : Vec3)
    (r : Mat3) :
    ((o.insert_point p s r).1.remove_point
        (o.insert_point p s r).2).point_cells (o.insert_point p s r).2 = none ∧
      (∀ j, ((o.insert_point p s r).1.remove_point
        (o.insert_point p s r).2).point_cells j = o.point_cells j) ∧
      (∀ c, ((o.insert_point p s r).1.remove_point
        (o.insert_point p s r).2).cells c = o.cells c) := by
  have hidx : (o.insert_point p s r).2 = o.points.length := rfl
  have hnone : o.point_cells o.points.length = none := by
    by_contra hne
    exact absurd (inv.dom _ hne) (lt_irrefl _)
  have hpc1 : ∀ j, (o.insert_point p s r).1.point_cells j =
      if j = o.points.length then some (o.getCellIndicesForPoint p)
      else o.point_cells j := by
    intro j
    exact insertPoint_pc _ o.points.length p s r j
  have hcells1 : ∀ c, (o.insert_point p s r).1.cells c =
      o.cells c ++ List.replicate ((o.getCellIndicesForPoint p).count c)
        o.points.length := by
    intro c
    exact appendCells_apply o.cells (o.getCellIndicesForPoint p) o.points.length c
  have hpc1n : (o.insert_point p s r).1.point_cells o.points.length =
      some (o.getCellIndicesForPoint p) := by
    rw [hpc1]; simp
  have hrem := remove_point_some hpc1n
  have hnotmem : ∀ c, o.points.length ∉ o.cells c := by
    intro c
    rw [← List.count_eq_zero]
    have := inv.count_eq o.points.length c
    rw [hnone] at this
    simpa using this
  refine ⟨?_, ?_, ?_⟩
  · rw [hidx, hrem]
    show (if o.points.length = o.points.length then none else _) = none
    simp
  · intro j
    rw [hidx, hrem]
    show (if j = o.points.length then none
      else (o.insert_point p s r).1.point_cells j) = o.point_cells j
    by_cases hj : j = o.points.length
    · rw [if_pos hj, hj, hnone]
    · rw [if_neg hj, hpc1 j, if_neg hj]
  · intro c
    rw [hidx, hrem]
    show eraseCells (o.insert_point p s r).1.cells
      (o.getCellIndicesForPoint p) o.points.length c = o.cells c
    rw [eraseCells_apply]
    rw [hcells1 c]
    exact eraseIterate_append_replicate _ _ _ (hnotmem c)

/-- C3 (amended): updating a handle with exactly the position, scale and
rotation it already stores leaves the reverse index unchanged, and leaves every
cell membership sequence unchanged up to permutation — the handle is moved to
the end of each of its cells' sequences, so the sequences are not bitwise
identical in general (see the counterexample), but their contents are. -/
theorem update_same_values_perm (o : Octree) (inv : OctreeInv o) (h : ℕ)
    (l : List Cell3) (hl : o.point_cells h = some l) :
    (∀ j, (o.update_point h (o.points.getD h v0) (o.scales.getD h v0)
        (o.rotations.getD h idMat)).point_cells j = o.point_cells j) ∧
      (∀ c, ((o.update_point h (o.points.getD h v0) (o.scales.getD h v0)
        (o.rotations.getD h idMat)).cells c).Perm (o.cells c)) := by
  have hlt : h < o.points.length := inv.dom h (by simp [hl])
  have hls : h < o.scales.length := lt_of_lt_of_le hlt inv.len_s
  have hlr : h < o.rotations.length := lt_of_lt_of_le hlt inv.len_r
  have hnew : o.getCellIndicesForPoint (o.points.getD h v0) = l :=
    (inv.pc_eq h l hl).symm
  constructor
  · intro j
    rw [update_point_pc_full _ _ _ hlt hls hlr j]
    by_cases hj : j = h
    · rw [if_pos hj, hnew, hj, hl]
    · rw [if_neg hj]
  · intro c
    rw [update_point_cells_full _ _ _ hlt hls hlr]
    have hrc : (o.remove_point h).cells = eraseCells o.cells l h := by
      rw [remove_point_some hl]
    rw [hnew, appendCells_apply, hrc, eraseCells_apply]
    refine perm_eraseIterate_append _ _ _ ?_
    have := inv.count_eq h c
    rw [hl] at this
    simpa using this

/-- C9: a handle that has been removed but is still within the stored arrays is
silently resurrected by `update_point`: the call does not raise, overwrites the
three storage slots at that handle, and re-registers the handle in both the
reverse index and the membership sequences of every cell computed for the new
position. -/
theorem update_resurrects_removed (o : Octree) (h : ℕ) (p s : Vec3) (r : Mat3)
    (h1 : h < o.points.length) (h2 : h < o.scales.length)
    (h3 : h < o.rotations.length) :
    ¬ updateRaises (o.remove_point h) h ∧
      ((o.remove_point h).update_point h p s r).point_cells h =
        some ((o.remove_point h).getCellIndicesForPoint p) ∧
      (∀ c, c ∈ (o.remove_point h).getCellIndicesForPoint p →
        h ∈ ((o.remove_point h).update_point h p s r).cells c) ∧
      ((o.remove_point h).update_point h p s r).points.getD h v0 = p ∧
      ((o.remove_point h).update_point h p s r).scales.getD h v0 = s ∧
      ((o.remove_point h).update_point h p s r).rotations.getD h idMat = r := by
  have b1 : h < (o.remove_point h).points.length := by
    rw [remove_point_points]; exact h1
  have b2 : h < (o.remove_point h).scales.length := by
    rw [remove_point_scales]; exact h2
  have b3 : h < (o.remove_point h).rotations.length := by
    rw [remove_point_rotations]; exact h3
  have hres := update_point_eq (o := o.remove_point h) p s r b1 b2 b3
  refine ⟨?_, ?_, ?_, ?_, ?_, ?_⟩
  · unfold updateRaises
    omega
  · rw [update_point_pc_full _ _ _ b1 b2 b3 h, if_pos rfl]
  · intro c hc
    rw [update_point_cells_full _ _ _ b1 b2 b3, appendCells_apply]
    refine List.mem_append_right _ ?_
    rw [List.mem_replicate]
    refine ⟨?_, rfl⟩
    have hcc : 0 < ((o.remove_point h).getCellIndicesForPoint p).count c :=
      List.count_pos_iff.mpr hc
    omega
  · rw [hres, insertPoint_points]
    exact getD_set_self _ _ _ _
      (by rw [remove_point_points, remove_point_points]; exact h1)
  · rw [hres, insertPoint_scales]
    exact getD_set_self _ _ _ _
      (by rw [remove_point_scales, remove_point_scales]; exact h2)
  · rw [hres, insertPoint_rotations]
    exact getD_set_self _ _ _ _
      (by rw [remove_point_rotations, remove_point_rotations]; exact h3)

lemma log2floorAux_bounds : ∀ fuel n, 1 ≤ n → n ≤ fuel →
    2 ^ log2floorAux fuel n ≤ n ∧ n < 2 ^ (log2floorAux fuel n + 1) := by
  intro fuel
  induction fuel with
  | zero => intro n h1 h2; omega
  | succ k ih =>
    intro n h1 h2
    by_cases hn : 2 ≤ n
    · have hm1 : 1 ≤ n / 2 := by omega
      have hm2 : n / 2 ≤ k := by omega
      obtain ⟨ha, hb⟩ := ih (n / 2) hm1 hm2
      have hstep : log2floorAux (k + 1) n = log2floorAux k (n / 2) + 1 := by
        simp [log2floorAux, hn]
      rw [hstep]
      have hp : 2 ^ (log2floorAux k (n / 2) + 1) =
          2 * 2 ^ log2floorAux k (n / 2) := by ring
      have hp2 : 2 ^ (log2floorAux k (n / 2) + 1 + 1) =
          2 * 2 ^ (log2floorAux k (n / 2) + 1) := by ring
      constructor
      · rw [hp]; omega
      · rw [hp2]; omega
    · have hone : n = 1 := by omega
      subst hone
      simp [log2floorAux, hn]

lemma log2floor_bounds (n : ℕ) (h : 1 ≤ n) :
    2 ^ log2floor n ≤ n ∧ n < 2 ^ (log2floor n + 1) :=
  log2floorAux_bounds n n h le_rfl

lemma floorLog2Rat_bounds {x : ℚ} (hx : 1 < x) :
    (2 : ℚ) ^ floorLog2Rat x ≤ x ∧ x < (2 : ℚ) ^ (floorLog2Rat x + 1) := by
  have hfl : 1 ≤ ⌊x⌋ := by
    rw [Int.le_floor]
    exact_mod_cast hx.le
  have hnat : 1 ≤ ⌊x⌋.toNat := by omega
  obtain ⟨ha, hb⟩ := log2floor_bounds _ hnat
  unfold floorLog2Rat
  have hcast : ((⌊x⌋.toNat : ℤ) : ℚ) = ((⌊x⌋ : ℤ) : ℚ) := by
    rw [Int.toNat_of_nonneg (by omega)]
  constructor
  · have h1 : ((2 ^ log2floor ⌊x⌋.toNat : ℕ) : ℚ) ≤ ((⌊x⌋.toNat : ℕ) : ℚ) := by
      exact_mod_cast ha
    push_cast at h1
    calc (2 : ℚ) ^ log2floor ⌊x⌋.toNat ≤ ((⌊x⌋.toNat : ℤ) : ℚ) := by push_cast; linarith
      _ = ((⌊x⌋ : ℤ) : ℚ) := hcast
      _ ≤ x := Int.floor_le x
  · have h1 : ((⌊x⌋.toNat : ℕ) : ℚ) + 1 ≤ ((2 ^ (log2floor ⌊x⌋.toNat + 1) : ℕ) : ℚ) := by
      exact_mod_cast hb
    push_cast at h1
    have h2 : x < ((⌊x⌋ : ℤ) : ℚ) + 1 := Int.lt_floor_add_one x
    calc x < ((⌊x⌋ : ℤ) : ℚ) + 1 := h2
      _ = ((⌊x⌋.toNat : ℤ) : ℚ) + 1 := by rw [hcast]
      _ ≤ (2 : ℚ) ^ (log2floor ⌊x⌋.toNat + 1) := by push_cast; linarith

lemma foldl_vmin_le_vmax : ∀ (t : List Vec3) (a b : Vec3),
    a.x ≤ b.x → a.y ≤ b.y → a.z ≤ b.z →
    (t.foldl vmin a).x ≤ (t.foldl vmax b).x ∧
      (t.foldl vmin a).y ≤ (t.foldl vmax b).y ∧
      (t.foldl vmin a).z ≤ (t.foldl vmax b).z := by
  intro t
  induction t with
  | nil => intro a b h1 h2 h3; exact ⟨h1, h2, h3⟩
  | cons q u ih =>
    intro a b h1 h2 h3
    refine ih (vmin a q) (vmax b q) ?_ ?_ ?_
    · exact le_trans (min_le_left _ _) (le_trans h1 (le_max_left _ _))
    · exact le_trans (min_le_left _ _) (le_trans h2 (le_max_left _ _))
    · exact le_trans (min_le_left _ _) (le_trans h3 (le_max_left _ _))

lemma basicMin_le_basicMax (ps : List Vec3) :
    (basicMin ps).x ≤ (basicMax ps).x ∧ (basicMin ps).y ≤ (basicMax ps).y ∧
      (basicMin ps).z ≤ (basicMax ps).z := by
  cases ps with
  | nil => exact ⟨le_rfl, le_rfl, le_rfl⟩
  | cons p t => exact foldl_vmin_le_vmax t p p le_rfl le_rfl le_rfl

lemma rangeVal_nonneg (ps : List Vec3) : 0 ≤ rangeVal ps := by
  obtain ⟨h1, -, -⟩ := basicMin_le_basicMax ps
  unfold rangeVal
  have : (0 : ℚ) ≤ (basicMax ps).x - (basicMin ps).x := by linarith
  exact le_trans this (le_max_left _ _)

lemma octreeInit_grid_eq (ps ss : List Vec3) (rs : List Mat3) (m : ℚ) :
    (octreeInit ps ss rs m).global_min = (octreeInit0 ps ss rs m).global_min ∧
      (octreeInit ps ss rs m).global_max = (octreeInit0 ps ss rs m).global_max ∧
      (octreeInit ps ss rs m).depth = (octreeInit0 ps ss rs m).depth ∧
      (octreeInit ps ss rs m).n_cells = (octreeInit0 ps ss rs m).n_cells ∧
      (octreeInit ps ss rs m).cell_size = (octreeInit0 ps ss rs m).cell_size ∧
      (octreeInit ps ss rs m).default_extent =
        (octreeInit0 ps ss rs m).default_extent :=
  gridParams_fields (insertLoop_gridParams _ _)

lemma octreeInit_depth (ps ss : List Vec3) (rs : List Mat3) (m : ℚ) :
    (octreeInit ps ss rs m).depth =
      if rangeVal ps > m then floorLog2Rat (rangeVal ps / m) else 0 :=
  (octreeInit_grid_eq ps ss rs m).2.2.1

lemma octreeInit_n_cells (ps ss : List Vec3) (rs : List Mat3) (m : ℚ) :
    (octreeInit ps ss rs m).n_cells =
      if 0 < (octreeInit ps ss rs m).depth then 2 ^ (octreeInit ps ss rs m).depth
      else 1 := by
  rw [(octreeInit_grid_eq ps ss rs m).2.2.2.1, octreeInit_depth]
  rfl

lemma octreeInit_n_cells_pow (ps ss : List Vec3) (rs : List Mat3) (m : ℚ) :
    (octreeInit ps ss rs m).n_cells = 2 ^ (octreeInit ps ss rs m).depth := by
  rw [octreeInit_n_cells]
  by_cases h : 0 < (octreeInit ps ss rs m).depth
  · rw [if_pos h]
  · rw [if_neg h]
    have : (octreeInit ps ss rs m).depth = 0 := by omega
    rw [this]
    rfl

lemma octreeInit_n_cells_pos (ps ss : List Vec3) (rs : List Mat3) (m : ℚ) :
    1 ≤ (octreeInit ps ss rs m).n_cells := by
  rw [octreeInit_n_cells_pow]
  exact Nat.one_le_two_pow

lemma octreeInit_span (ps ss : List Vec3) (rs : List Mat3) (m : ℚ) :
    (octreeInit ps ss rs m).global_max.x - (octreeInit ps ss rs m).global_min.x
        = rangeVal ps ∧
      (octreeInit ps ss rs m).global_max.y -
        (octreeInit ps ss rs m).global_min.y = rangeVal ps ∧
      (octreeInit ps ss rs m).global_max.z -
        (octreeInit ps ss rs m).global_min.z = rangeVal ps := by
  obtain ⟨h1, h2, -, -, -, -⟩ := octreeInit_grid_eq ps ss rs m
  rw [h1, h2]
  refine ⟨?_, ?_, ?_⟩ <;>
    · simp only [octreeInit0]
      ring

lemma octreeInit_cell_size (ps ss : List Vec3) (rs : List Mat3) (m : ℚ) :
    (octreeInit ps ss rs m).cell_size.x =
        rangeVal ps / ((octreeInit ps ss rs m).n_cells : ℚ) ∧
      (octreeInit ps ss rs m).cell_size.y =
        rangeVal ps / ((octreeInit ps ss rs m).n_cells : ℚ) ∧
      (octreeInit ps ss rs m).cell_size.z =
        rangeVal ps / ((octreeInit ps ss rs m).n_cells : ℚ) := by
  obtain ⟨-, -, -, h4, h5, -⟩ := octreeInit_grid_eq ps ss rs m
  rw [h4, h5]
  refine ⟨?_, ?_, ?_⟩ <;>
    · simp only [octreeInit0]
      congr 1
      ring

lemma octreeInit_extent (ps ss : List Vec3) (rs : List Mat3) (m : ℚ) :
    (octreeInit ps ss rs m).default_extent =
      (octreeInit ps ss rs m).cell_size.x / 4 := by
  obtain ⟨-, -, -, -, h5, h6⟩ := octreeInit_grid_eq ps ss rs m
  rw [h5, h6]
  rfl

/-- C2 (amended): when the depth is computed from the logarithm formula
(`range_val > min_cell_size`), the derived cell size satisfies
`min_cell_size ≤ cell_size < 2 * min_cell_size`; in the clamped case
(`range_val ≤ min_cell_size`) the cell size equals `range_val` itself, which
can be strictly below `min_cell_size` (see the counterexample), so the
unconditional half of the original claim fails. The cell size is identical on
the three axes. -/
theorem cell_size_resolution_bounds (ps ss : List Vec3) (rs : List Mat3)
    (m : ℚ) (hm : 0 < m) :
    (m < rangeVal ps →
      m ≤ (octreeInit ps ss rs m).cell_size.x ∧
        (octreeInit ps ss rs m).cell_size.x < 2 * m) ∧
      (rangeVal ps ≤ m → (octreeInit ps ss rs m).cell_size.x = rangeVal ps) ∧
      (octreeInit ps ss rs m).cell_size.y = (octreeInit ps ss rs m).cell_size.x ∧
      (octreeInit ps ss rs m).cell_size.z = (octreeInit ps ss rs m).cell_size.x := by
  obtain ⟨hx, hy, hz⟩ := octreeInit_cell_size ps ss rs m
  refine ⟨?_, ?_, by rw [hx, hy], by rw [hx, hz]⟩
  · intro hlt
    have hgt1 : 1 < rangeVal ps / m := (one_lt_div hm).mpr hlt
    have hd : (octreeInit ps ss rs m).depth = floorLog2Rat (rangeVal ps / m) := by
      rw [octreeInit_depth, if_pos hlt]
    obtain ⟨ha, hb⟩ := floorLog2Rat_bounds hgt1
    rw [← hd] at ha hb
    have hncast : ((octreeInit ps ss rs m).n_cells : ℚ) =
        (2 : ℚ) ^ (octreeInit ps ss rs m).depth := by
      rw [octreeInit_n_cells_pow]
      push_cast
      ring
    have hpow : (0 : ℚ) < 2 ^ (octreeInit ps ss rs m).depth := by positivity
    rw [hx, hncast]
    constructor
    · rw [le_div_iff hpow]
      have h2 := (le_div_iff hm).mp ha
      linarith
    · rw [div_lt_iff hpow]
      have h2 := (div_lt_iff hm).mp hb
      have hps2 : (2 : ℚ) ^ ((octreeInit ps ss rs m).depth + 1) =
          2 * 2 ^ (octreeInit ps ss rs m).depth := by ring
      rw [hps2] at h2
      linarith
  · intro hle
    have hd : (octreeInit ps ss rs m).depth = 0 := by
      rw [octreeInit_depth, if_neg (not_lt.mpr hle)]
    have hn : (octreeInit ps ss rs m).n_cells = 1 := by
      rw [octreeInit_n_cells_pow, hd]
      rfl
    rw [hx, hn]
    norm_num

lemma iclip_mono {v w lo hi : ℤ} (h : v ≤ w) : iclip v lo hi ≤ iclip w lo hi :=
  min_le_min (max_le_max h le_rfl) le_rfl

lemma axis_agree {coord gmin r ext : ℚ} {n : ℕ} (hr : 0 ≤ r) (hn : 1 ≤ n)
    (hext : 0 ≤ ext) :
    gridIdx (coord - ext) gmin (r / (n : ℚ)) n ≤
        queryIdx coord gmin (gmin + r) n ∧
      queryIdx coord gmin (gmin + r) n ≤
        gridIdx (coord + ext) gmin (r / (n : ℚ)) n := by
  have hn0 : (0 : ℚ) < (n : ℚ) := by exact_mod_cast hn
  have hn1 : (1 : ℤ) ≤ (n : ℤ) := by exact_mod_cast hn
  have hclip0 : iclip 0 0 ((n : ℤ) - 1) = 0 := by
    unfold iclip
    rw [max_self, min_eq_left (by omega)]
  rcases eq_or_lt_of_le hr with h0 | hpos
  · have e1 : ∀ y : ℚ, gridIdx y gmin (r / (n : ℚ)) n = 0 := by
      intro y
      unfold gridIdx
      rw [← h0, zero_div, div_zero, Int.floor_zero, hclip0]
    have e2 : queryIdx coord gmin (gmin + r) n = 0 := by
      unfold queryIdx
      rw [← h0, add_zero, sub_self, div_zero, zero_mul, Int.floor_zero, hclip0]
    rw [e1, e1, e2]
    exact ⟨le_rfl, le_rfl⟩
  · have hcs : (0 : ℚ) < r / (n : ℚ) := div_pos hpos hn0
    have hgg : (gmin + r) - gmin = r := by ring
    have hq : queryIdx coord gmin (gmin + r) n =
        gridIdx coord gmin (r / (n : ℚ)) n := by
      unfold queryIdx gridIdx
      rw [hgg]
      have harg : (coord - gmin) / r * (n : ℚ) =
          (coord - gmin) / (r / (n : ℚ)) := by
        field_simp
      rw [harg]
    have hmono : ∀ y z : ℚ, y ≤ z →
        gridIdx y gmin (r / (n : ℚ)) n ≤ gridIdx z gmin (r / (n : ℚ)) n := by
      intro y z hyz
      unfold gridIdx
      apply iclip_mono
      apply Int.floor_le_floor
      rw [div_le_div_iff_of_pos_right hcs]
      linarith
    rw [hq]
    exact ⟨hmono _ _ (by linarith), hmono _ _ (by linarith)⟩

lemma mem_cellRangeList {a b v : ℤ} : v ∈ cellRangeList a b ↔ a ≤ v ∧ v ≤ b := by
  unfold cellRangeList
  simp only [List.mem_map, List.mem_range]
  constructor
  · rintro ⟨k, hk, rfl⟩
    omega
  · rintro ⟨h1, h2⟩
    exact ⟨(v - a).toNat, by omega, by omega⟩

lemma mem_getCellIndices {o : Octree} {p : Vec3} {c : Cell3} :
    c ∈ o.getCellIndicesForPoint p ↔
      (gridIdx (p.x - o.default_extent) o.global_min.x o.cell_size.x o.n_cells
          ≤ c.x ∧
        c.x ≤ gridIdx (p.x + o.default_extent) o.global_min.x o.cell_size.x
          o.n_cells) ∧
      (gridIdx (p.y - o.default_extent) o.global_min.y o.cell_size.y o.n_cells
          ≤ c.y ∧
        c.y ≤ gridIdx (p.y + o.default_extent) o.global_min.y o.cell_size.y
          o.n_cells) ∧
      (gridIdx (p.z - o.default_extent) o.global_min.z o.cell_size.z o.n_cells
          ≤ c.z ∧
        c.z ≤ gridIdx (p.z + o.default_extent) o.global_min.z o.cell_size.z
          o.n_cells) := by
  unfold Octree.getCellIndicesForPoint
  simp only [List.mem_bind, List.mem_map, mem_cellRangeList]
  constructor
  · rintro ⟨ix, hix, iy, hiy, iz, hiz, rfl⟩
    exact ⟨hix, hiy, hiz⟩
  · rintro ⟨hx, hy, hz⟩
    exact ⟨c.x, hx, c.y, hy, c.z, hz, rfl⟩

/-- C4: for every 3D position (inside or outside the bounding cube) and every
constructed grid, the single cell returned by `query_cell` is an element of the
cell set computed by `_get_cell_indices_for_point` for the same position. -/
theorem query_cell_agrees (ps ss : List Vec3) (rs : List Mat3) (m : ℚ)
    (p : Vec3) :
    (octreeInit ps ss rs m).query_cell p ∈
      (octreeInit ps ss rs m).getCellIndicesForPoint p := by
  obtain ⟨hsx, hsy, hsz⟩ := octreeInit_span ps ss rs m
  obtain ⟨hcx, hcy, hcz⟩ := octreeInit_cell_size ps ss rs m
  have hext := octreeInit_extent ps ss rs m
  have hn := octreeInit_n_cells_pos ps ss rs m
  have hr := rangeVal_nonneg ps
  have hext0 : 0 ≤ (octreeInit ps ss rs m).default_extent := by
    rw [hext, hcx]
    have hn0 : (0 : ℚ) ≤ ((octreeInit ps ss rs m).n_cells : ℚ) := by
      exact_mod_cast Nat.zero_le _
    exact div_nonneg (div_nonneg hr hn0) (by norm_num)
  have hgx : (octreeInit ps ss rs m).global_max.x =
      (octreeInit ps ss rs m).global_min.x + rangeVal ps := by linarith
  have hgy : (octreeInit ps ss rs m).global_max.y =
      (octreeInit ps ss rs m).global_min.y + rangeVal ps := by linarith
  have hgz : (octreeInit ps ss rs m).global_max.z =
      (octreeInit ps ss rs m).global_min.z + rangeVal ps := by linarith
  rw [mem_getCellIndices]
  have hqx : ((octreeInit ps ss rs m).query_cell p).x =
      queryIdx p.x (octreeInit ps ss rs m).global_min.x
        (octreeInit ps ss rs m).global_max.x (octreeInit ps ss rs m).n_cells := rfl
  have hqy : ((octreeInit ps ss rs m).query_cell p).y =
      queryIdx p.y (octreeInit ps ss rs m).global_min.y
        (octreeInit ps ss rs m).global_max.y (octreeInit ps ss rs m).n_cells := rfl
  have hqz : ((octreeInit ps ss rs m).query_cell p).z =
      queryIdx p.z (octreeInit ps ss rs m).global_min.z
        (octreeInit ps ss rs m).global_max.z (octreeInit ps ss rs m).n_cells := rfl
  rw [hqx, hqy, hqz, hcx, hcy, hcz, hgx, hgy, hgz]
  exact ⟨axis_agree hr hn hext0, axis_agree hr hn hext0, axis_agree hr hn hext0⟩

/-- C6: the grid parameters `global_min`, `global_max`, `depth`, `n_cells`,
`cell_size` and `default_extent` are fixed at construction and are not modified
by any subsequent sequence of `insert_point`, `update_point` or `remove_point`
calls (`query_cell` and `query` are pure functions of the state and return
values, not new states, so they cannot modify anything). -/
theorem grid_parameters_frame (ps ss : List Vec3) (rs : List Mat3) (m : ℚ)
    (ops : List Op) :
    ((octreeInit ps ss rs m).runOps ops).global_min =
        (octreeInit ps ss rs m).global_min ∧
      ((octreeInit ps ss rs m).runOps ops).global_max =
        (octreeInit ps ss rs m).global_max ∧
      ((octreeInit ps ss rs m).runOps ops).depth =
        (octreeInit ps ss rs m).depth ∧
      ((octreeInit ps ss rs m).runOps ops).n_cells =
        (octreeInit ps ss rs m).n_cells ∧
      ((octreeInit ps ss rs m).runOps ops).cell_size =
        (octreeInit ps ss rs m).cell_size ∧
      ((octreeInit ps ss rs m).runOps ops).default_extent =
        (octreeInit ps ss rs m).default_extent :=
  gridParams_fields (runOps_gridParams _ ops)

/-- C7 (amended): the constructor performs no input validation and does not
fail fast: whenever the positions are nonempty, `min_cell_size` is positive and
the scales and rotations arrays are at least as long as the positions, it
succeeds and registers every initial primitive in the reverse index — even when
the lengths are mismatched (scales or rotations strictly longer). The failures
it does exhibit are incidental numpy errors (empty reduction, IndexError
mid-loop, nan/inf integer conversion) recorded in `constructRaises`, not an
`InvalidConstructionInput` check performed before state is built. -/
theorem construct_no_validation (ps ss : List Vec3) (rs : List Mat3) (m : ℚ)
    (hne : ps ≠ []) (hm : 0 < m) (hs : ps.length ≤ ss.length)
    (hr : ps.length ≤ rs.length) :
    ¬ constructRaises ps ss rs m ∧
      ∀ i, i < ps.length → (octreeInit ps ss rs m).point_cells i ≠ none := by
  constructor
  · unfold constructRaises
    push_neg
    exact ⟨hne, by omega, by omega, fun _ => hm⟩
  · intro i hi
    exact insertLoop_pc_low (octreeInit0 ps ss rs m) ps.length i hi

lemma foldl_vmin_const (p : Vec3) : ∀ t : List Vec3, (∀ q ∈ t, q = p) →
    t.foldl vmin p = p := by
  intro t
  induction t with
  | nil => intro _; rfl
  | cons q u ih =>
    intro hall
    have hq : q = p := hall q (List.mem_cons_self q u)
    rw [List.foldl_cons, hq, show vmin p p = p from by simp [vmin]]
    exact ih (fun s hs => hall s (List.mem_cons_of_mem q hs))

lemma foldl_vmax_const (p : Vec3) : ∀ t : List Vec3, (∀ q ∈ t, q = p) →
    t.foldl vmax p = p := by
  intro t
  induction t with
  | nil => intro _; rfl
  | cons q u ih =>
    intro hall
    have hq : q = p := hall q (List.mem_cons_self q u)
    rw [List.foldl_cons, hq, show vmax p p = p from by simp [vmax]]
    exact ih (fun s hs => hall s (List.mem_cons_of_mem q hs))

lemma basic_const {p : Vec3} {ps : List Vec3} (hps : ps ≠ [])
    (hall : ∀ q ∈ ps, q = p) : basicMin ps = p ∧ basicMax ps = p := by
  cases ps with
  | nil => exact absurd rfl hps
  | cons q t =>
    have hq : q = p := hall q (List.mem_cons_self q t)
    subst hq
    have hall2 : ∀ s ∈ t, s = q := fun s hs => hall s (List.mem_cons_of_mem q hs)
    exact ⟨foldl_vmin_const q t hall2, foldl_vmax_const q t hall2⟩

/-- C10: if all initial positions coincide, construction succeeds (for positive
`min_cell_size` and scales/rotations at least as long as the positions) and
produces the degenerate grid the claim describes: `range_val = 0`, a single
cell, `cell_size = 0` and `default_extent = 0`, with
`global_max = global_min` — so the unguarded division by `cell_size` in
`_get_cell_indices_for_point` and the unguarded division by
`global_max - global_min` in `query_cell` are divisions by zero (total and
yielding 0 in this rational model, inf/nan in numpy). Contrapositively a
positive cell size requires two initial positions differing on some axis. -/
theorem identical_positions_zero_cell_size (p : Vec3) (ps ss : List Vec3)
    (rs : List Mat3) (m : ℚ) (hm : 0 < m) (hps : ps ≠ [])
    (hall : ∀ q ∈ ps, q = p) (hs : ps.length ≤ ss.length)
    (hr : ps.length ≤ rs.length) :
    ¬ constructRaises ps ss rs m ∧ rangeVal ps = 0 ∧
      (octreeInit ps ss rs m).n_cells = 1 ∧
      (octreeInit ps ss rs m).cell_size.x = 0 ∧
      (octreeInit ps ss rs m).cell_size.y = 0 ∧
      (octreeInit ps ss rs m).cell_size.z = 0 ∧
      (octreeInit ps ss rs m).default_extent = 0 ∧
      (octreeInit ps ss rs m).global_max.x =
        (octreeInit ps ss rs m).global_min.x ∧
      (octreeInit ps ss rs m).global_max.y =
        (octreeInit ps ss rs m).global_min.y ∧
      (octreeInit ps ss rs m).global_max.z =
        (octreeInit ps ss rs m).global_min.z := by
  obtain ⟨hmin, hmax⟩ := basic_const hps hall
  have hrange : rangeVal ps = 0 := by
    unfold rangeVal
    rw [hmin, hmax]
    simp
  have hn1 : (octreeInit ps ss rs m).n_cells = 1 := by
    rw [octreeInit_n_cells_pow,
      show (octreeInit ps ss rs m).depth = 0 from by
        rw [octreeInit_depth, if_neg (by rw [hrange]; intro hc; linarith)]]
    rfl
  obtain ⟨hcx, hcy, hcz⟩ := octreeInit_cell_size ps ss rs m
  obtain ⟨hsx, hsy, hsz⟩ := octreeInit_span ps ss rs m
  have hext := octreeInit_extent ps ss rs m
  refine ⟨?_, hrange, hn1, ?_, ?_, ?_, ?_, ?_, ?_, ?_⟩
  · unfold constructRaises
    push_neg
    exact ⟨hps, by omega, by omega, fun _ => hm⟩
  · rw [hcx, hrange, zero_div]
  · rw [hcy, hrange, zero_div]
  · rw [hcz, hrange, zero_div]
  · rw [hext, hcx, hrange, zero_div, zero_div]
  · rw [hrange] at hsx; linarith
  · rw [hrange] at hsy; linarith
  · rw [hrange] at hsz; linarith

/-- C8: the spec's concrete scenario. Constructing from positions
[[0,0,0],[1,1,1]] with unit scales, identity rotations and min_cell_size
0.6 = 3/5 yields range_val 1, depth 0, resolution 1 with the single cell
(0,0,0) holding both handles; query([1/2,1/2,1/2]) returns [0,1]; after
remove(0) the same query returns [1] and the reverse index no longer contains
handle 0. -/
theorem concrete_scenario :
    rangeVal ps0 = 1 ∧ exampleOctree.depth = 0 ∧ exampleOctree.n_cells = 1 ∧
      exampleOctree.point_cells 0 = some [⟨0, 0, 0⟩] ∧
      exampleOctree.point_cells 1 = some [⟨0, 0, 0⟩] ∧
      exampleOctree.query ⟨1 / 2, 1 / 2, 1 / 2⟩ = [0, 1] ∧
      (exampleOctree.remove_point 0).query ⟨1 / 2, 1 / 2, 1 / 2⟩ = [1] ∧
      (exampleOctree.remove_point 0).point_cells 0 = none := by
  have hr : List.range 2 = [0, 1] := rfl
  have hr1 : List.range 1 = [0] := rfl
  norm_num [exampleOctree, octreeInit, octreeInit0, Octree.insertLoop, hr, hr1,
    Function.comp, Octree._insert_point, Octree.remove_point,
    Octree.getCellIndicesForPoint, appendCells, eraseCells, gridIdx, iclip,
    cellRangeList, rangeVal, basicMin, basicMax, ps0, ss0, rs0, vmin, vmax,
    List.getD, floorLog2Rat, log2floor, log2floorAux, Octree.query,
    Octree.query_cell, queryIdx]

/-- C2 counterexample: positions spanning only 1/2 with min_cell_size 1 are
accepted by the constructor and produce cell_size 1/2, strictly below
min_cell_size — refuting the unconditional bound `cell_size ≥ min_cell_size`. -/
theorem cell_size_below_min :
    ¬ constructRaises psSmall ssSmall rsSmall 1 ∧
      (octreeInit psSmall ssSmall rsSmall 1).min_cell_size = 1 ∧
      (octreeInit psSmall ssSmall rsSmall 1).cell_size.x = 1 / 2 ∧
      (octreeInit psSmall ssSmall rsSmall 1).cell_size.x <
        (octreeInit psSmall ssSmall rsSmall 1).min_cell_size := by
  have hr : List.range 2 = [0, 1] := rfl
  have hr1 : List.range 1 = [0] := rfl
  norm_num [octreeInit, octreeInit0, Octree.insertLoop, hr, hr1,
    Function.comp, Octree._insert_point, Octree.getCellIndicesForPoint,
    appendCells, gridIdx, iclip, cellRangeList, rangeVal, basicMin, basicMax,
    psSmall, ssSmall, rsSmall, vmin, vmax, List.getD, floorLog2Rat, log2floor,
    log2floorAux, constructRaises, List.cons_ne_nil]

/-- Witness for the amended C2 bounds at the concrete scenario input. -/
theorem cell_size_resolution_bounds_witness :
    (0 : ℚ) < 3 / 5 ∧
      ((3 : ℚ) / 5 ≤ (octreeInit ps0 ss0 rs0 (3 / 5)).cell_size.x ∧
        (octreeInit ps0 ss0 rs0 (3 / 5)).cell_size.x < 2 * (3 / 5)) :=
  ⟨by norm_num,
    (cell_size_resolution_bounds ps0 ss0 rs0 (3 / 5) (by norm_num)).1
      (by norm_num [rangeVal, basicMin, basicMax, ps0, vmin, vmax])⟩

/-- Witness for C1 at the concrete scenario input. -/
theorem reverse_index_consistency_witness :
    ¬ constructRaises ps0 ss0 rs0 (3 / 5) ∧
      (0 ∈ ((octreeInit ps0 ss0 rs0 (3 / 5)).runOps []).cells ⟨0, 0, 0⟩ ↔
        ⟨0, 0, 0⟩ ∈
          (((octreeInit ps0 ss0 rs0 (3 / 5)).runOps []).point_cells 0).getD []) :=
  ⟨by norm_num [constructRaises, ps0, ss0, rs0, rangeVal, basicMin, basicMax,
      vmin, vmax, List.cons_ne_nil],
    reverse_index_consistency ps0 ss0 rs0 (3 / 5) []
      (by norm_num [constructRaises, ps0, ss0, rs0, rangeVal, basicMin,
        basicMax, vmin, vmax, List.cons_ne_nil]) 0 ⟨0, 0, 0⟩⟩

/-- C3 counterexample: in the concrete scenario octree, updating handle 0 with
exactly the position, scale and rotation it already stores moves the handle to
the end of its cell's membership sequence: cells[(0,0,0)] changes from [0, 1]
to [1, 0], so the index is not left bitwise unchanged. -/
theorem update_same_values_reorders :
    exampleOctree.points.getD 0 v0 = ⟨0, 0, 0⟩ ∧
      exampleOctree.scales.getD 0 v0 = ⟨1, 1, 1⟩ ∧
      exampleOctree.rotations.getD 0 idMat = idMat ∧
      exampleOctree.cells ⟨0, 0, 0⟩ = [0, 1] ∧
      (exampleOctree.update_point 0 ⟨0, 0, 0⟩ ⟨1, 1, 1⟩
        idMat).cells ⟨0, 0, 0⟩ = [1, 0] := by
  have hr : List.range 2 = [0, 1] := rfl
  have hr1 : List.range 1 = [0] := rfl
  norm_num [exampleOctree, octreeInit, octreeInit0, Octree.insertLoop, hr, hr1,
    Function.comp, Octree._insert_point, Octree.remove_point,
    Octree.update_point, Octree.getCellIndicesForPoint, appendCells,
    eraseCells, gridIdx, iclip, cellRangeList, rangeVal, basicMin, basicMax,
    ps0, ss0, rs0, vmin, vmax, List.getD, floorLog2Rat, log2floor,
    log2floorAux]

/-- Witness for the amended C3 statement at the concrete scenario octree. -/
theorem update_same_values_perm_witness :
    ((exampleOctree.update_point 0 (exampleOctree.points.getD 0 v0)
        (exampleOctree.scales.getD 0 v0)
        (exampleOctree.rotations.getD 0 idMat)).point_cells 1 =
      exampleOctree.point_cells 1) ∧
      ((exampleOctree.update_point 0 (exampleOctree.points.getD 0 v0)
        (exampleOctree.scales.getD 0 v0)
        (exampleOctree.rotations.getD 0 idMat)).cells ⟨0, 0, 0⟩).Perm
        (exampleOctree.cells ⟨0, 0, 0⟩) := by
  have hinv : OctreeInv exampleOctree :=
    inv_init (by norm_num [constructRaises, ps0, ss0, rs0, rangeVal, basicMin,
      basicMax, vmin, vmax, List.cons_ne_nil])
  have hl : exampleOctree.point_cells 0 = some [⟨0, 0, 0⟩] := by
    have hr : List.range 2 = [0, 1] := rfl
    have hr1 : List.range 1 = [0] := rfl
    norm_num [exampleOctree, octreeInit, octreeInit0, Octree.insertLoop, hr,
      hr1, Function.comp, Octree._insert_point, Octree.getCellIndicesForPoint,
      appendCells, gridIdx, iclip, cellRangeList, rangeVal, basicMin, basicMax,
      ps0, ss0, rs0, vmin, vmax, List.getD, floorLog2Rat, log2floor,
      log2floorAux]
  exact ⟨(update_same_values_perm exampleOctree hinv 0 [⟨0, 0, 0⟩] hl).1 1,
    (update_same_values_perm exampleOctree hinv 0 [⟨0, 0, 0⟩] hl).2 ⟨0, 0, 0⟩⟩

/-- Witness for C5 at the concrete scenario octree. -/
theorem insert_remove_inverse_witness :
    ((exampleOctree.insert_point ⟨2, 2, 2⟩ ⟨1, 1, 1⟩ idMat).1.remove_point
        (exampleOctree.insert_point ⟨2, 2, 2⟩ ⟨1, 1, 1⟩ idMat).2).point_cells
        (exampleOctree.insert_point ⟨2, 2, 2⟩ ⟨1, 1, 1⟩ idMat).2 = none ∧
      ((exampleOctree.insert_point ⟨2, 2, 2⟩ ⟨1, 1, 1⟩ idMat).1.remove_point
        (exampleOctree.insert_point ⟨2, 2, 2⟩ ⟨1, 1, 1⟩ idMat).2).cells
        ⟨0, 0, 0⟩ = exampleOctree.cells ⟨0, 0, 0⟩ := by
  have hinv : OctreeInv exampleOctree :=
    inv_init (by norm_num [constructRaises, ps0, ss0, rs0, rangeVal, basicMin,
      basicMax, vmin, vmax, List.cons_ne_nil])
  exact ⟨(insert_remove_inverse exampleOctree hinv ⟨2, 2, 2⟩ ⟨1, 1, 1⟩ idMat).1,
    (insert_remove_inverse exampleOctree hinv ⟨2, 2, 2⟩ ⟨1, 1, 1⟩
      idMat).2.2 ⟨0, 0, 0⟩⟩

/-- C7 counterexample: one position paired with two scales and two rotations —
mismatched lengths — and positive min_cell_size: the constructor does not fail
fast with any error; it builds the index state and registers handle 0. -/
theorem construct_accepts_mismatched_lengths :
    ¬ constructRaises psOne ss0 rs0 1 ∧ psOne.length ≠ ss0.length ∧
      (octreeInit psOne ss0 rs0 1).point_cells 0 ≠ none := by
  refine ⟨?_, by norm_num [psOne, ss0], ?_⟩
  · norm_num [constructRaises, psOne, ss0, rs0, rangeVal, basicMin, basicMax,
      vmin, vmax, List.cons_ne_nil]
  · exact insertLoop_pc_low (octreeInit0 psOne ss0 rs0 1) psOne.length 0
      (by norm_num [psOne])

/-- Witness for the amended C7 statement at a mismatched-length input. -/
theorem construct_no_validation_witness :
    ¬ constructRaises psOne ss0 rs0 (1 / 2) ∧
      (octreeInit psOne ss0 rs0 (1 / 2)).point_cells 0 ≠ none :=
  ⟨(construct_no_validation psOne ss0 rs0 (1 / 2) (by norm_num [psOne])
      (by norm_num) (by norm_num [psOne, ss0]) (by norm_num [psOne, rs0])).1,
    (construct_no_validation psOne ss0 rs0 (1 / 2) (by norm_num [psOne])
      (by norm_num) (by norm_num [psOne, ss0]) (by norm_num [psOne, rs0])).2 0
      (by norm_num [psOne])⟩

/-- Witness for C9 at the concrete scenario octree: handle 0 is removed and
then resurrected by an update with a fresh position. -/
theorem update_resurrects_removed_witness :
    ¬ updateRaises (exampleOctree.remove_point 0) 0 ∧
      ((exampleOctree.remove_point 0).update_point 0 ⟨1 / 4, 1 / 4, 1 / 4⟩
          ⟨1, 1, 1⟩ idMat).point_cells 0 =
        some ((exampleOctree.remove_point 0).getCellIndicesForPoint
          ⟨1 / 4, 1 / 4, 1 / 4⟩) ∧
      ((exampleOctree.remove_point 0).update_point 0 ⟨1 / 4, 1 / 4, 1 / 4⟩
          ⟨1, 1, 1⟩ idMat).points.getD 0 v0 = ⟨1 / 4, 1 / 4, 1 / 4⟩ := by
  have h1 : 0 < exampleOctree.points.length := by
    rw [show exampleOctree.points = ps0 from insertLoop_points _ _]
    norm_num [ps0]
  have h2 : 0 < exampleOctree.scales.length := by
    rw [show exampleOctree.scales = ss0 from insertLoop_scales _ _]
    norm_num [ss0]
  have h3 : 0 < exampleOctree.rotations.length := by
    rw [show exampleOctree.rotations = rs0 from insertLoop_rotations _ _]
    norm_num [rs0]
  have h := update_resurrects_removed exampleOctree 0 ⟨1 / 4, 1 / 4, 1 / 4⟩
    ⟨1, 1, 1⟩ idMat h1 h2 h3
  exact ⟨h.1, h.2.1, h.2.2.2.1⟩

/-- Witness for C10 at a concrete pair of identical positions. -/
theorem identical_positions_zero_cell_size_witness :
    ¬ constructRaises [⟨1, 2, 3⟩, ⟨1, 2, 3⟩] ss0 rs0 1 ∧
      (octreeInit [⟨1, 2, 3⟩, ⟨1, 2, 3⟩] ss0 rs0 1).cell_size.x = 0 ∧
      (octreeInit [⟨1, 2, 3⟩, ⟨1, 2, 3⟩] ss0 rs0 1).global_max.x =
        (octreeInit [⟨1, 2, 3⟩, ⟨1, 2, 3⟩] ss0 rs0 1).global_min.x := by
  have h := identical_positions_zero_cell_size ⟨1, 2, 3⟩
    [⟨1, 2, 3⟩, ⟨1, 2, 3⟩] ss0 rs0 1 (by norm_num)
    (by norm_num [List.cons_ne_nil])
    (by intro q hq; fin_cases hq <;> rfl)
    (by norm_num [ss0]) (by norm_num [rs0])
  exact ⟨h.1, h.2.2.2.1, h.2.2.2.2.2.2.2.1⟩
